import Mathlib

/-!
Verification of the blueprint-toolkit checkpoint manager, run context,
metric saver and S3 path mapping (shallow embedding of the Python source
in `src/blueprint_toolkit/`).

Strings are modelled as `List Char`.  Python's decimal rendering of a
non-negative integer is modelled by `natDigits`, and `int(...)` restricted
to digit strings by `parseNat`.
-/

/-- Fuel-based helper for `natDigits` (structural recursion keeps the
definition kernel-reducible; the fuel is never exhausted when it exceeds
the input). -/
def natDigitsAux : Nat → Nat → List Char
  | 0, _ => []
  | fuel + 1, n =>
    if n < 10 then [Nat.digitChar n]
    else natDigitsAux fuel (n / 10) ++ [Nat.digitChar (n % 10)]

/-- Decimal rendering of a natural number, as produced by Python string
formatting of a non-negative `int` (no sign, no leading zeros). -/
def natDigits (n : Nat) : List Char := natDigitsAux (n + 1) n

theorem natDigitsAux_irrel : ∀ (n f1 f2 : Nat), n < f1 → n < f2 →
    natDigitsAux f1 n = natDigitsAux f2 n := by
  intro n
  induction n using Nat.strong_induction_on with
  | _ n ih =>
    intro f1 f2 h1 h2
    match f1, f2 with
    | g1 + 1, g2 + 1 =>
      show natDigitsAux (g1 + 1) n = natDigitsAux (g2 + 1) n
      unfold natDigitsAux
      split
      · rfl
      · next h10 =>
        have hlt : n / 10 < n := Nat.div_lt_self (by omega) (by omega)
        rw [ih (n / 10) hlt g1 g2 (by omega) (by omega)]

/-- Unfolding equation for `natDigits`. -/
theorem natDigits_eq (n : Nat) : natDigits n =
    if n < 10 then [Nat.digitChar n]
    else natDigits (n / 10) ++ [Nat.digitChar (n % 10)] := by
  show natDigitsAux (n + 1) n = _
  unfold natDigitsAux
  split
  · rfl
  · next h10 =>
    have hlt : n / 10 < n := Nat.div_lt_self (by omega) (by omega)
    rw [natDigitsAux_irrel (n / 10) n (n / 10 + 1) (by omega) (by omega)]
    rfl

/-- One decimal digit, or `none` for a non-digit character
(Python `int` raises `ValueError` on such input). -/
def parseDigit (c : Char) : Option Nat :=
  if c.isDigit then some (c.toNat - 48) else none

/-- Python `int(...)` on a string of decimal digits; `none` models a
`ValueError` (empty string or non-digit character). -/
def parseNat (l : List Char) : Option Nat :=
  if l.isEmpty then none
  else l.foldl (fun acc c => acc.bind fun n => (parseDigit c).map fun d => 10 * n + d)
    (some 0)

theorem parseDigit_digitChar {m : Nat} (h : m < 10) :
    parseDigit (Nat.digitChar m) = some m := by
  interval_cases m <;> decide

theorem digitChar_isDigit {m : Nat} (h : m < 10) :
    (Nat.digitChar m).isDigit = true := by
  interval_cases m <;> decide

theorem natDigits_ne_nil (n : Nat) : natDigits n ≠ [] := by
  rw [natDigits_eq]
  split <;> simp

theorem natDigits_isDigit (n : Nat) : ∀ c ∈ natDigits n, c.isDigit = true := by
  induction n using Nat.strong_induction_on with
  | _ n ih =>
    rw [natDigits_eq]
    split
    · next h =>
      intro c hc
      simp only [List.mem_singleton] at hc
      subst hc
      exact digitChar_isDigit h
    · next h =>
      intro c hc
      rw [List.mem_append] at hc
      rcases hc with hc | hc
      · exact ih (n / 10) (Nat.div_lt_self (by omega) (by omega)) c hc
      · simp only [List.mem_singleton] at hc
        subst hc
        exact digitChar_isDigit (Nat.mod_lt _ (by omega))

theorem parseNat_foldl {l : List Char} {m : Nat} (h : parseNat l = some m) :
    l.foldl (fun acc c => acc.bind fun n => (parseDigit c).map fun d => 10 * n + d)
      (some 0) = some m := by
  unfold parseNat at h
  split at h
  · exact absurd h (by simp)
  · exact h

theorem parseNat_natDigits (n : Nat) : parseNat (natDigits n) = some n := by
  induction n using Nat.strong_induction_on with
  | _ n ih =>
    rw [natDigits_eq]
    split
    · next h =>
      simp [parseNat, parseDigit_digitChar h, List.foldl]
    · next h =>
      have hrec := parseNat_foldl (ih (n / 10) (Nat.div_lt_self (by omega) (by omega)))
      have hne : natDigits (n / 10) ++ [Nat.digitChar (n % 10)] ≠ [] := by simp
      unfold parseNat
      rw [if_neg (by simp [List.isEmpty_iff, hne])]
      rw [List.foldl_append, hrec]
      simp only [List.foldl, Option.bind_some]
      rw [parseDigit_digitChar (Nat.mod_lt _ (by omega))]
      simp [Nat.div_add_mod]

/-!
### Checkpoint identifier codec

`LocalFileCheckpointManager.save_checkpoint` (line 169) generates
`f"{global_step}-{run_id}__{token}"` where `token = str(uuid4())` consists
of hexadecimal digits and hyphens (in particular it never contains an
underscore).  `load_checkpoint` (lines 236-240) decodes a directory name by
`rsplit("__", 1)`, `split("-")`, `int` on the first segment and a `"-"`
join of the rest.
-/

/-- The checkpoint id `f"{global_step}-{run_id}__{token}"` built at
`checkpoint_manager.py:169`. -/
def encodeCheckpointId (globalStep : Nat) (runId token : List Char) : List Char :=
  natDigits globalStep ++ ['-'] ++ runId ++ ['_', '_'] ++ token

/-- Index of the last occurrence of `pat` in `s` (the split point of
Python's `rsplit(pat, 1)`); `0` with no occurrence at `0` when `pat` does
not occur. -/
def lastIdxOf (pat s : List Char) : Nat :=
  Nat.findGreatest (fun i => pat.isPrefixOf (s.drop i) = true) s.length

/-- The decode algorithm of `checkpoint_manager.py:237-240`:
`base, _ = id.rsplit("__", 1)`, `parts = base.split("-")`,
`global_step = int(parts[0])`, `run_id = "-".join(parts[1:])`.
`none` models the `ValueError` raised when `"__"` does not occur or the
leading segment is not an integer literal. -/
def decodeCheckpointId (s : List Char) : Option (Nat × List Char) :=
  if ['_', '_'].isPrefixOf (s.drop (lastIdxOf ['_', '_'] s)) then
    match (s.take (lastIdxOf ['_', '_'] s)).splitOn '-' with
    | [] => none
    | p0 :: rest => (parseNat p0).map (fun gs => (gs, List.intercalate ['-'] rest))
  else none

theorem isPrefixOf_subset {pat l : List Char} (h : pat.isPrefixOf l = true) :
    ∀ c ∈ pat, c ∈ l := by
  induction pat generalizing l with
  | nil => simp
  | cons p ps ih =>
    cases l with
    | nil => simp [List.isPrefixOf] at h
    | cons c cs =>
      simp only [List.isPrefixOf, Bool.and_eq_true, beq_iff_eq] at h
      intro x hx
      rcases List.mem_cons.mp hx with hx | hx
      · subst hx; rw [h.1]; exact List.mem_cons_self _ _
      · exact List.mem_cons_of_mem _ (ih h.2 x hx)

theorem lastIdxOf_encode (globalStep : Nat) (runId token : List Char)
    (htok : ('_' : Char) ∉ token) :
    lastIdxOf ['_', '_'] (encodeCheckpointId globalStep runId token) =
      (natDigits globalStep ++ ['-'] ++ runId).length := by
  set B := natDigits globalStep ++ ['-'] ++ runId with hB
  have hs : encodeCheckpointId globalStep runId token = B ++ ('_' :: '_' :: token) := by
    simp [encodeCheckpointId, hB, List.append_assoc]
  have hlen : (encodeCheckpointId globalStep runId token).length =
      B.length + (token.length + 2) := by
    rw [hs, List.length_append]; simp
  have hP : (['_', '_'].isPrefixOf
      ((encodeCheckpointId globalStep runId token).drop B.length)) = true := by
    rw [hs, List.drop_left]
    simp [List.isPrefixOf]
  apply Nat.le_antisymm
  · by_contra hlt
    push_neg at hlt
    have hK : ['_', '_'].isPrefixOf ((encodeCheckpointId globalStep runId token).drop
        (lastIdxOf ['_', '_'] (encodeCheckpointId globalStep runId token))) = true := by
      unfold lastIdxOf
      exact Nat.findGreatest_spec (P := fun i =>
          (['_', '_'].isPrefixOf ((encodeCheckpointId globalStep runId token).drop i)) = true)
        (by omega : B.length ≤ (encodeCheckpointId globalStep runId token).length) hP
    set K := lastIdxOf ['_', '_'] (encodeCheckpointId globalStep runId token) with hKdef
    have hKB : B.length < K := hlt
    have hdropK : (encodeCheckpointId globalStep runId token).drop K =
        ('_' :: '_' :: token).drop (K - B.length) := by
      rw [hs, List.drop_append_eq_append_drop]
      have hBd : B.drop K = [] := List.drop_eq_nil_of_le (by omega)
      simp [hBd]
    rw [hdropK] at hK
    rcases Nat.lt_or_ge (K - B.length) 2 with hm | hm
    · have hm1 : K - B.length = 1 := by omega
      rw [hm1] at hK
      simp only [List.drop_succ_cons, List.drop_zero] at hK
      cases token with
      | nil => simp [List.isPrefixOf] at hK
      | cons t ts =>
        simp only [List.isPrefixOf, Bool.and_eq_true, beq_iff_eq, true_and, and_true] at hK
        exact htok (by rw [hK]; exact List.mem_cons_self _ _)
    · have : ('_' :: '_' :: token).drop (K - B.length) = token.drop (K - B.length - 2) := by
        have h2 : K - B.length = (K - B.length - 2) + 2 := by omega
        rw [h2]
        simp [List.drop_succ_cons]
      rw [this] at hK
      cases hd : token.drop (K - B.length - 2) with
      | nil => rw [hd] at hK; simp [List.isPrefixOf] at hK
      | cons t ts =>
        rw [hd] at hK
        simp only [List.isPrefixOf, Bool.and_eq_true, beq_iff_eq] at hK
        apply htok
        apply List.mem_of_mem_drop (n := K - B.length - 2)
        rw [hd, ← hK.1]
        exact List.mem_cons_self _ _
  · exact Nat.le_findGreatest (by omega) hP

/-- Shared roundtrip lemma for the checkpoint id codec: decoding an encoded
id recovers the step and the run id, for any token free of underscores. -/
theorem decode_encode_checkpoint (globalStep : Nat) (runId token : List Char)
    (htok : ('_' : Char) ∉ token) :
    decodeCheckpointId (encodeCheckpointId globalStep runId token) =
      some (globalStep, runId) := by
  have hidx := lastIdxOf_encode globalStep runId token htok
  set B := natDigits globalStep ++ ['-'] ++ runId with hB
  have hs : encodeCheckpointId globalStep runId token = B ++ ('_' :: '_' :: token) := by
    simp [encodeCheckpointId, hB, List.append_assoc]
  unfold decodeCheckpointId
  rw [hidx]
  rw [show (encodeCheckpointId globalStep runId token).drop B.length = '_' :: '_' :: token
    from by rw [hs, List.drop_left]]
  rw [if_pos (by simp [List.isPrefixOf])]
  rw [show (encodeCheckpointId globalStep runId token).take B.length = B
    from by rw [hs, List.take_left]]
  have hsplit : B.splitOn '-' = natDigits globalStep :: runId.splitOn '-' := by
    have hfirst := List.splitOnP_first (fun c => c == '-') (natDigits globalStep)
      (by
        intro c hc hbeq
        have := natDigits_isDigit globalStep c hc
        rw [beq_iff_eq] at hbeq
        subst hbeq
        simp at this)
      '-' (by simp) runId
    have : B = natDigits globalStep ++ '-' :: runId := by simp [hB]
    rw [this]
    simpa [List.splitOn] using hfirst
  rw [hsplit]
  simp [parseNat_natDigits, List.intercalate_splitOn]

/-- Claim C1: for every non-negative integer global step and every run id
(including run ids containing hyphens), encoding a checkpoint id as
`f"{global_step}-{run_id}__{token}"` and decoding it (rsplit once on
`"__"`, parse the leading hyphen-delimited segment as an integer, rejoin
the remaining segments with `"-"`) recovers the original global step and
run id exactly.  The token is any `str(uuid4())`-like string, i.e. one
containing no underscore. -/
theorem claim_c1_checkpoint_id_roundtrip (globalStep : Nat) (runId token : List Char)
    (htok : ('_' : Char) ∉ token) :
    decodeCheckpointId (encodeCheckpointId globalStep runId token) =
      some (globalStep, runId) :=
  decode_encode_checkpoint globalStep runId token htok

/-- Witness for C1 at a concrete input with a hyphen-bearing run id and a
uuid-shaped token. -/
theorem claim_c1_witness :
    decodeCheckpointId (encodeCheckpointId 12 "my-run".toList "ab12-cd34".toList) =
      some (12, "my-run".toList) :=
  claim_c1_checkpoint_id_roundtrip 12 "my-run".toList "ab12-cd34".toList (by decide)

/-!
### Filesystem model and `save_checkpoint` rollback

A filesystem is a list of existing nodes, each node a path given as a list
of name segments.  `os.makedirs(p, exist_ok=True)` adds `p` and all its
ancestors; `shutil.rmtree(p)` removes `p` and every node below it.  The
body of the `with save_checkpoint(...)` block is an arbitrary function
from the filesystem to a new filesystem plus an optional raised error
(`some e` models a raised exception `e`).
-/

/-- A filesystem path, as a list of name segments. -/
abbrev FsPath := List (List Char)

/-- A filesystem: the list of existing nodes (files and directories). -/
abbrev Fs := List FsPath

/-- Model of `os.makedirs(p, exist_ok=True)`: ensure `p` and all its ancestors
exist (`checkpoint_manager.py:172`). -/
def makedirs (fs : Fs) (p : FsPath) : Fs :=
  fs ++ (List.range p.length).map (fun i => p.take (i + 1))

/-- Model of `shutil.rmtree(p)`: remove the directory `p` and everything below it
(`checkpoint_manager.py:177`). -/
def rmtree (p : FsPath) (fs : Fs) : Fs :=
  fs.filter (fun q => !(p.isPrefixOf q))

/-- The directory `{base_dir}/runs/{run_id}/checkpoints/{id}` of
`LocalFileCheckpointManager._checkpoint_path`. -/
def checkpointPath (baseDir : FsPath) (runId id : List Char) : FsPath :=
  baseDir ++ ["runs".toList, runId, "checkpoints".toList, id]

/-- Embedding of `LocalFileCheckpointManager.save_checkpoint` (lines 169-178): build the
checkpoint id, create its directory, run the body; on an exception from
the body, delete the whole checkpoint directory and re-raise the same
exception object. -/
def saveCheckpointScope (fs : Fs) (baseDir : FsPath) (runId : List Char)
    (globalStep : Nat) (token : List Char) (body : Fs → Fs × Option Nat) :
    Fs × Option Nat :=
  match body (makedirs fs (checkpointPath baseDir runId
      (encodeCheckpointId globalStep runId token))) with
  | (fs2, none) => (fs2, none)
  | (fs2, some e) =>
    (rmtree (checkpointPath baseDir runId (encodeCheckpointId globalStep runId token)) fs2,
      some e)

/-- Claim C2: if the body of a `save_checkpoint` scope raises, then after
the scope exits no node at or below the checkpoint's directory exists,
and the error observed by the caller is the original one, unchanged. -/
theorem claim_c2_save_rollback (fs : Fs) (baseDir : FsPath) (runId : List Char)
    (globalStep : Nat) (token : List Char) (body : Fs → Fs × Option Nat)
    (fs2 : Fs) (e : Nat)
    (hbody : body (makedirs fs (checkpointPath baseDir runId
      (encodeCheckpointId globalStep runId token))) = (fs2, some e)) :
    (saveCheckpointScope fs baseDir runId globalStep token body).2 = some e ∧
    ∀ q ∈ (saveCheckpointScope fs baseDir runId globalStep token body).1,
      ¬ ((checkpointPath baseDir runId
        (encodeCheckpointId globalStep runId token)).isPrefixOf q = true) := by
  unfold saveCheckpointScope
  rw [hbody]
  refine ⟨rfl, ?_⟩
  intro q hq
  simp only [rmtree, List.mem_filter, Bool.not_eq_eq_eq_not, Bool.not_true] at hq
  simp [hq.2]

/-- Witness for C2: a body that writes nothing and raises error `7`; the
error propagates and the checkpoint directory is gone. -/
theorem claim_c2_witness :
    (saveCheckpointScope [] [] "r".toList 1 "t".toList (fun f => (f, some 7))).2 =
      some 7 :=
  (claim_c2_save_rollback [] [] "r".toList 1 "t".toList (fun f => (f, some 7))
    (makedirs [] (checkpointPath [] "r".toList (encodeCheckpointId 1 "r".toList "t".toList)))
    7 rfl).1

/-!
### Glob matching and `load_checkpoint`

`load_checkpoint` with an explicit id runs
`runs_path.glob(f"*/checkpoints/{id}")` (lines 227-234); with no id it
lists `checkpoints_path.glob("*")` for the current run and takes the
maximum by `(st_mtime, int(name.split("-")[0]))` (lines 217-226).  The
directory tree is abstracted as a list of entries, one per directory
`{base_dir}/runs/{run}/checkpoints/{name}` with its modification time.
The id supplied by the caller is interpolated into the glob pattern, so it
is matched with `fnmatch` semantics (`*` and `?` wildcards). -/

/-- Matching in the `fnmatch` style of a glob pattern against one path segment:
`*` matches any character sequence and `?` any single character (other
characters, including `[`, match literally in this model). -/
def globMatch : List Char → List Char → Bool
  | [], s => s.isEmpty
  | p :: ps, s =>
    if p = '*' then s.tails.any (fun t => globMatch ps t)
    else
      match s with
      | [] => false
      | c :: s' => if p = '?' then globMatch ps s' else decide (p = c) && globMatch ps s'

/-- One checkpoint directory `{base_dir}/runs/{run}/checkpoints/{name}`,
with its directory modification time. -/
structure CkptEntry where
  run : List Char
  name : List Char
  mtime : Nat
deriving DecidableEq

/-- The `LoadCheckpointData` of `checkpoint_manager.py` (directory, id,
global step and run id of the loaded checkpoint). -/
structure LoadedCheckpoint where
  entry : CkptEntry
  id : List Char
  globalStep : Nat
  runId : List Char
deriving DecidableEq

/-- Errors that `load_checkpoint` can raise: `CheckpointNotFoundError`
(with an optional id), the `RuntimeError` for multiple matches, and the
`ValueError` of a failed integer parse or malformed name. -/
inductive LoadError where
  | checkpointNotFound : Option (List Char) → LoadError
  | multipleCheckpoints : List Char → LoadError
  | valueError : LoadError
deriving DecidableEq

/-- Outcome of `load_checkpoint`: either the yielded data or a raised
error. -/
inductive LoadResult where
  | ok : LoadedCheckpoint → LoadResult
  | error : LoadError → LoadResult
deriving DecidableEq

/-- Decode of the resolved directory name and construction of the yielded
data (`checkpoint_manager.py:236-243`). -/
def finishDecode (e : CkptEntry) : LoadResult :=
  match decodeCheckpointId e.name with
  | some (gs, rid) => .ok ⟨e, e.name, gs, rid⟩
  | none => .error .valueError

/-- The directories listed by `checkpoints_path.glob("*")` for the current
run (line 220). -/
def currentRunCheckpoints (entries : List CkptEntry) (runId : List Char) :
    List CkptEntry :=
  entries.filter (fun e => e.run == runId)

/-- The directories matched by `runs_path.glob(f"*/checkpoints/{id}")`
(lines 229 and 251-252): any run, literal `checkpoints` segment, and the
supplied id as an fnmatch pattern on the directory name. -/
def checkpointGlobMatches (entries : List CkptEntry) (id : List Char) :
    List CkptEntry :=
  entries.filter (fun e => globMatch id e.name)

/-- The key component `int(c.name.split("-")[0])` used in the max key (line 225); `none`
models the `ValueError` on a non-integer leading segment. -/
def stepOfName (name : List Char) : Option Nat :=
  parseNat (name.takeWhile (fun c => c != '-'))

/-- The key `(c.stat().st_mtime, int(c.name.split("-")[0]))` of line 225
(defined via `getD`; `loadCheckpoint` only consults it after checking that
every parse succeeds, mirroring the `ValueError` Python would raise). -/
def entryKey (e : CkptEntry) : Nat × Nat :=
  (e.mtime, (stepOfName e.name).getD 0)

/-- Strict lexicographic comparison of Python tuples `(mtime, step)`. -/
def lexLt (a b : Nat × Nat) : Bool :=
  decide (a.1 < b.1) || (decide (a.1 = b.1) && decide (a.2 < b.2))

/-- Non-strict lexicographic order on `(mtime, step)` keys. -/
def lexLe (a b : Nat × Nat) : Prop :=
  a.1 < b.1 ∨ (a.1 = b.1 ∧ a.2 ≤ b.2)

/-- Python `max(iterable, key=...)`: fold over the remaining elements,
replacing the current best exactly when the new key is strictly greater
(ties keep the earliest element). -/
def pyMax (key : CkptEntry → Nat × Nat) (c : CkptEntry) (cs : List CkptEntry) :
    CkptEntry :=
  cs.foldl (fun best x => if lexLt (key best) (key x) then x else best) c

/-- Embedding of `LocalFileCheckpointManager.load_checkpoint` (lines 217-243). -/
def loadCheckpoint (entries : List CkptEntry) (curRun : List Char) :
    Option (List Char) → LoadResult
  | none =>
    match currentRunCheckpoints entries curRun with
    | [] => .error (.checkpointNotFound none)
    | c :: cs =>
      if (c :: cs).all (fun e => (stepOfName e.name).isSome) then
        finishDecode (pyMax entryKey c cs)
      else .error .valueError
  | some id =>
    match checkpointGlobMatches entries id with
    | [] => .error (.checkpointNotFound (some id))
    | [e] => finishDecode e
    | _ => .error (.multipleCheckpoints id)

theorem lexLe_refl (a : Nat × Nat) : lexLe a a := Or.inr ⟨rfl, Nat.le_refl _⟩

theorem lexLt_false_le {a b : Nat × Nat} (h : lexLt a b = false) : lexLe b a := by
  unfold lexLt at h
  simp only [Bool.or_eq_false_iff, Bool.and_eq_false_iff, decide_eq_false_iff_not] at h
  unfold lexLe
  rcases h with ⟨h1, h2 | h2⟩ <;> omega

theorem lexLt_true_le {a b : Nat × Nat} (h : lexLt a b = true) : lexLe a b := by
  unfold lexLt at h
  simp only [Bool.or_eq_true, Bool.and_eq_true, decide_eq_true_eq] at h
  unfold lexLe
  rcases h with h | ⟨h1, h2⟩ <;> omega

theorem lexLe_trans {a b c : Nat × Nat} (h1 : lexLe a b) (h2 : lexLe b c) :
    lexLe a c := by
  unfold lexLe at h1 h2 ⊢
  rcases h1 with h1 | ⟨h1, h1'⟩ <;> rcases h2 with h2 | ⟨h2, h2'⟩ <;> omega

theorem pyMax_mem (key : CkptEntry → Nat × Nat) :
    ∀ (cs : List CkptEntry) (c : CkptEntry), pyMax key c cs ∈ c :: cs := by
  intro cs
  induction cs with
  | nil => intro c; simp [pyMax]
  | cons x xs ih =>
    intro c
    have hmem := ih (if lexLt (key c) (key x) then x else c)
    unfold pyMax at hmem ⊢
    rw [List.foldl_cons]
    rcases List.mem_cons.mp hmem with h1 | h1
    · rw [h1]
      split
      · exact List.mem_cons_of_mem _ (List.mem_cons_self _ _)
      · exact List.mem_cons_self _ _
    · exact List.mem_cons_of_mem _ (List.mem_cons_of_mem _ h1)

theorem pyMax_le (key : CkptEntry → Nat × Nat) :
    ∀ (cs : List CkptEntry) (c : CkptEntry), ∀ e ∈ c :: cs,
      lexLe (key e) (key (pyMax key c cs)) := by
  intro cs
  induction cs with
  | nil =>
    intro c e he
    simp only [List.mem_singleton] at he
    subst he
    simp [pyMax, lexLe_refl]
  | cons x xs ih =>
    intro c e he
    have hstep : lexLe (key c) (key (if lexLt (key c) (key x) then x else c)) ∧
        lexLe (key x) (key (if lexLt (key c) (key x) then x else c)) := by
      by_cases h : lexLt (key c) (key x) = true
      · rw [if_pos h]; exact ⟨lexLt_true_le h, lexLe_refl _⟩
      · rw [if_neg h]
        exact ⟨lexLe_refl _, lexLt_false_le (Bool.not_eq_true _ ▸ (by simpa using h))⟩
    have hhead := ih (if lexLt (key c) (key x) then x else c)
      (if lexLt (key c) (key x) then x else c) (List.mem_cons_self _ _)
    unfold pyMax at hhead ⊢
    rw [List.foldl_cons]
    rcases List.mem_cons.mp he with h1 | h1
    · subst h1
      exact lexLe_trans hstep.1 hhead
    · rcases List.mem_cons.mp h1 with h2 | h2
      · subst h2
        exact lexLe_trans hstep.2 hhead
      · exact ih (if lexLt (key c) (key x) then x else c) e (List.mem_cons_of_mem _ h2)

theorem takeWhile_append_stop {p : Char → Bool} :
    ∀ (a : List Char), (∀ c ∈ a, p c = true) → ∀ (b : Char), p b = false →
      ∀ (t : List Char), (a ++ b :: t).takeWhile p = a := by
  intro a
  induction a with
  | nil =>
    intro _ b hb t
    simp [List.takeWhile, hb]
  | cons x xs ih =>
    intro ha b hb t
    have hx : p x = true := ha x (List.mem_cons_self _ _)
    simp only [List.cons_append, List.takeWhile, hx]
    rw [show xs.append (b :: t) = xs ++ b :: t from rfl]
    rw [ih (fun c hc => ha c (List.mem_cons_of_mem _ hc)) b hb t]

/-- A directory name as generated by `save_checkpoint`: the encoding of
some step and run id with a uuid-style (underscore-free) token. -/
def WellFormedName (name : List Char) : Prop :=
  ∃ gs rid tok, ('_' : Char) ∉ tok ∧ name = encodeCheckpointId gs rid tok

theorem stepOfName_encode (gs : Nat) (rid tok : List Char) :
    stepOfName (encodeCheckpointId gs rid tok) = some gs := by
  unfold stepOfName
  have hs : encodeCheckpointId gs rid tok =
      natDigits gs ++ '-' :: (rid ++ ['_', '_'] ++ tok) := by
    simp [encodeCheckpointId, List.append_assoc]
  rw [hs, takeWhile_append_stop (natDigits gs)
    (by
      intro c hc
      have hd := natDigits_isDigit gs c hc
      have : c ≠ '-' := by
        intro hcc
        rw [hcc] at hd
        simp at hd
      simpa using this)
    '-' (by decide) _]
  exact parseNat_natDigits gs

theorem wellFormed_step_isSome {name : List Char} (h : WellFormedName name) :
    (stepOfName name).isSome = true := by
  obtain ⟨gs, rid, tok, _, hname⟩ := h
  rw [hname, stepOfName_encode]
  rfl

theorem wellFormed_decode {name : List Char} (h : WellFormedName name) :
    ∃ gs rid, decodeCheckpointId name = some (gs, rid) := by
  obtain ⟨gs, rid, tok, htok, hname⟩ := h
  exact ⟨gs, rid, hname ▸ decode_encode_checkpoint gs rid tok htok⟩

/-- An id free of the glob metacharacters `*`, `?` and `[`. -/
def NoGlobMeta (id : List Char) : Prop :=
  ∀ c ∈ id, c ≠ '*' ∧ c ≠ '?' ∧ c ≠ '['

theorem globMatch_eq_of_noMeta :
    ∀ {pat : List Char}, NoGlobMeta pat → ∀ (s : List Char),
      (globMatch pat s = true ↔ pat = s) := by
  intro pat
  induction pat with
  | nil =>
    intro _ s
    cases s <;> simp [globMatch]
  | cons p ps ih =>
    intro hmeta s
    have hp := hmeta p (List.mem_cons_self _ _)
    have htail : NoGlobMeta ps := fun c hc => hmeta c (List.mem_cons_of_mem _ hc)
    unfold globMatch
    rw [if_neg hp.1]
    cases s with
    | nil => simp
    | cons c s' =>
      show (if p = '?' then globMatch ps s' else decide (p = c) && globMatch ps s') =
        true ↔ p :: ps = c :: s'
      rw [if_neg hp.2.1]
      simp only [Bool.and_eq_true, decide_eq_true_eq, ih htail s', List.cons_eq_cons]

/-- Claim C3: `load_checkpoint(id)` searches the checkpoint roots of all
runs (its result is independent of the manager's current run id); with no
match it raises `CheckpointNotFoundError` carrying the id, and with more
than one match it raises the distinct `RuntimeError` data-integrity
condition; for ids free of glob metacharacters the matched directories are
exactly those whose trailing path segment equals the id. -/
theorem claim_c3_load_by_id (entries : List CkptEntry) (runA runB id : List Char) :
    (loadCheckpoint entries runA (some id) = loadCheckpoint entries runB (some id)) ∧
    (checkpointGlobMatches entries id = [] →
      loadCheckpoint entries runA (some id) = .error (.checkpointNotFound (some id))) ∧
    (2 ≤ (checkpointGlobMatches entries id).length →
      loadCheckpoint entries runA (some id) = .error (.multipleCheckpoints id) ∧
      LoadError.multipleCheckpoints id ≠ LoadError.checkpointNotFound (some id)) ∧
    (NoGlobMeta id →
      checkpointGlobMatches entries id = entries.filter (fun e => e.name == id)) := by
  refine ⟨rfl, ?_, ?_, ?_⟩
  · intro h
    simp [loadCheckpoint, h]
  · intro h
    match hm : checkpointGlobMatches entries id with
    | [] => rw [hm] at h; simp at h
    | [e] => rw [hm] at h; simp at h
    | a :: b :: t =>
      refine ⟨?_, by simp⟩
      simp [loadCheckpoint, hm]
  · intro hmeta
    unfold checkpointGlobMatches
    apply List.filter_congr
    intro e _
    by_cases hb : e.name = id
    · rw [hb]
      have := (globMatch_eq_of_noMeta hmeta id).mpr rfl
      simp [this]
    · have hne : ¬ globMatch id e.name = true := by
        intro hgm
        exact hb ((globMatch_eq_of_noMeta hmeta e.name).mp hgm).symm
      simp only [Bool.not_eq_true] at hne
      rw [hne]
      simpa using hb

/-- Witness for C3 at a concrete store with zero matches for the id. -/
theorem claim_c3_witness :
    loadCheckpoint [CkptEntry.mk "r".toList "1-r__t".toList 0] "a".toList
      (some "9-q__u".toList) = .error (.checkpointNotFound (some "9-q__u".toList)) :=
  (claim_c3_load_by_id [CkptEntry.mk "r".toList "1-r__t".toList 0] "a".toList
    "b".toList "9-q__u".toList).2.1 (by decide)

/-- Claim C4: `load_checkpoint()` with no id lists the checkpoint
directories of the current run only; with none it raises
`CheckpointNotFoundError` (no id), and otherwise it yields the directory
maximal by `(modification time, parsed leading step)` with modification
time primary and the parsed step as tie-break (the names of saved
checkpoints are well-formed encodings, under which the `entryKey`
comparison key is exactly that pair). -/
theorem claim_c4_load_latest (entries : List CkptEntry) (curRun : List Char) :
    (currentRunCheckpoints entries curRun = [] →
      loadCheckpoint entries curRun none = .error (.checkpointNotFound none)) ∧
    (currentRunCheckpoints entries curRun ≠ [] →
      (∀ e ∈ currentRunCheckpoints entries curRun, WellFormedName e.name) →
      ∃ d, loadCheckpoint entries curRun none = .ok d ∧
        d.entry ∈ currentRunCheckpoints entries curRun ∧
        d.id = d.entry.name ∧
        ∀ e ∈ currentRunCheckpoints entries curRun,
          lexLe (entryKey e) (entryKey d.entry)) := by
  constructor
  · intro h
    simp [loadCheckpoint, h]
  · intro hne hwf
    match hcur : currentRunCheckpoints entries curRun with
    | [] => exact absurd hcur hne
    | c :: cs =>
      rw [hcur] at hwf
      have hall : (c :: cs).all (fun e => (stepOfName e.name).isSome) = true := by
        rw [List.all_eq_true]
        intro e he
        exact wellFormed_step_isSome (hwf e he)
      have hmem := pyMax_mem entryKey cs c
      obtain ⟨gs, rid, hdec⟩ := wellFormed_decode (hwf _ hmem)
      refine ⟨⟨pyMax entryKey c cs, (pyMax entryKey c cs).name, gs, rid⟩, ?_, ?_, rfl, ?_⟩
      · simp only [loadCheckpoint, hcur, hall, if_pos]
        unfold finishDecode
        rw [hdec]
      · exact hmem
      · exact pyMax_le entryKey cs c

/-- Witness for C4: two checkpoints with distinct modification times; the
younger one (higher mtime, despite the lower step) is selected. -/
theorem claim_c4_witness :
    (currentRunCheckpoints []  "r".toList = [] →
      loadCheckpoint [] "r".toList none = .error (.checkpointNotFound none)) ∧
    (∃ d, loadCheckpoint
        [CkptEntry.mk "r".toList "1-r__t".toList 5, CkptEntry.mk "r".toList "3-r__u".toList 4]
        "r".toList none = .ok d ∧
      d.entry ∈ currentRunCheckpoints
        [CkptEntry.mk "r".toList "1-r__t".toList 5, CkptEntry.mk "r".toList "3-r__u".toList 4]
        "r".toList ∧
      d.id = d.entry.name ∧
      ∀ e ∈ currentRunCheckpoints
        [CkptEntry.mk "r".toList "1-r__t".toList 5, CkptEntry.mk "r".toList "3-r__u".toList 4]
        "r".toList, lexLe (entryKey e) (entryKey d.entry)) := by
  constructor
  · exact (claim_c4_load_latest [] "r".toList).1
  · refine (claim_c4_load_latest
      [CkptEntry.mk "r".toList "1-r__t".toList 5, CkptEntry.mk "r".toList "3-r__u".toList 4]
      "r".toList).2 (by decide) ?_
    intro e he
    have hcc : currentRunCheckpoints
        [CkptEntry.mk "r".toList "1-r__t".toList 5, CkptEntry.mk "r".toList "3-r__u".toList 4]
        "r".toList =
        [CkptEntry.mk "r".toList "1-r__t".toList 5,
          CkptEntry.mk "r".toList "3-r__u".toList 4] := by decide
    rw [hcc] at he
    rcases List.mem_cons.mp he with he2 | he2
    · subst he2
      exact ⟨1, "r".toList, "t".toList, by decide, by decide⟩
    · rcases List.mem_cons.mp he2 with he3 | he3
      · subst he3
        exact ⟨3, "r".toList, "u".toList, by decide, by decide⟩
      · simp at he3

/-- Claim C10: for ids free of glob metacharacters, a successful
`load_checkpoint(id)` yields data whose id field equals the supplied id;
the guarantee does not extend to wildcard-bearing ids, because the id is
interpolated into a glob pattern: a pattern such as `*` can load a
checkpoint whose name differs from the supplied id. -/
theorem claim_c10_id_fidelity :
    (∀ (entries : List CkptEntry) (curRun id : List Char) (d : LoadedCheckpoint),
      NoGlobMeta id → loadCheckpoint entries curRun (some id) = .ok d → d.id = id) ∧
    (∃ (entries : List CkptEntry) (curRun id : List Char) (d : LoadedCheckpoint),
      ¬ NoGlobMeta id ∧ loadCheckpoint entries curRun (some id) = .ok d ∧ d.id ≠ id) := by
  constructor
  · intro entries curRun id d hmeta hload
    cases hm : checkpointGlobMatches entries id with
    | nil =>
      rw [show loadCheckpoint entries curRun (some id) =
        .error (.checkpointNotFound (some id)) from by simp [loadCheckpoint, hm]] at hload
      exact absurd hload (by simp)
    | cons a t =>
      cases t with
      | cons b t2 =>
        rw [show loadCheckpoint entries curRun (some id) =
          .error (.multipleCheckpoints id) from by simp [loadCheckpoint, hm]] at hload
        exact absurd hload (by simp)
      | nil =>
        have hload2 : finishDecode a = .ok d := by
          rw [show loadCheckpoint entries curRun (some id) = finishDecode a from by
            simp [loadCheckpoint, hm]] at hload
          exact hload
        have hmatch : globMatch id a.name = true := by
          have hmem : a ∈ checkpointGlobMatches entries id := by
            rw [hm]; exact List.mem_cons_self _ _
          exact (List.mem_filter.mp hmem).2
        have hname : a.name = id := ((globMatch_eq_of_noMeta hmeta a.name).mp hmatch).symm
        unfold finishDecode at hload2
        cases hdec : decodeCheckpointId a.name with
        | none => rw [hdec] at hload2; exact absurd hload2 (by simp)
        | some pr =>
          rw [hdec] at hload2
          have hd : d = ⟨a, a.name, pr.1, pr.2⟩ := by
            cases hload2
            rfl
          rw [hd, ← hname]
  · refine ⟨[CkptEntry.mk "r".toList "1-r__t".toList 0], "q".toList, "*".toList,
      ⟨CkptEntry.mk "r".toList "1-r__t".toList 0, "1-r__t".toList, 1, "r".toList⟩,
      by unfold NoGlobMeta; decide, by decide, by decide⟩

/-- Witness for the universal part of C10 at a concrete wildcard-free id. -/
theorem claim_c10_witness :
    (LoadedCheckpoint.mk (CkptEntry.mk "r".toList "1-r__t".toList 0)
      "1-r__t".toList 1 "r".toList).id = "1-r__t".toList :=
  claim_c10_id_fidelity.1 [CkptEntry.mk "r".toList "1-r__t".toList 0] "q".toList
    "1-r__t".toList
    (LoadedCheckpoint.mk (CkptEntry.mk "r".toList "1-r__t".toList 0)
      "1-r__t".toList 1 "r".toList)
    (by unfold NoGlobMeta; decide) (by decide)

/-!
### Run Context enter/exit (`run_context.py`)

`RunContext.__enter__` (lines 119-142) walks the collaborators in the
fixed order config, model, progress, metric, checkpoint; each one that is
a context manager is entered into the `ExitStack`.  `RunContext.__exit__`
(lines 144-173) first calls `ExitStack.__exit__`, which pops and invokes
every registered exit callback in LIFO order even when callbacks raise
(each new exception replaces the pending one and chains the previous via
`__context__`, and is re-raised after the stack is empty); only if that
call returns does `__exit__` suppress a `RunContextInterruptedError`.
Release failures are modelled by an optional error per collaborator, and
exception objects by a main error plus the flattened `__context__` chain.
-/

/-- The five collaborator roles entered by `RunContext.__enter__`. -/
inductive CollabName where
  | config
  | model
  | progress
  | metric
  | checkpoint
deriving DecidableEq

/-- The fixed order of `__enter__` lines 132-141. -/
def collabOrder : List CollabName :=
  [.config, .model, .progress, .metric, .checkpoint]

/-- One collaborator: whether it exposes the context-manager capability
(`_is_context_manager`), and whether its exit callback raises (`some e`)
or returns normally (`none`). -/
structure Collab where
  isCM : Bool
  releaseErr : Option Nat
deriving DecidableEq

/-- Python exception classes in this model: the interruption condition or
an ordinary error. -/
inductive RCErr where
  | interrupted
  | err : Nat → RCErr
deriving DecidableEq

/-- A Python exception object: its own error plus the flattened
`__context__` chain of earlier exceptions. -/
structure PyExc where
  main : RCErr
  ctx : List RCErr
deriving DecidableEq

/-- The flattened chain of an optional pending exception. -/
def chainOf : Option PyExc → List RCErr
  | none => []
  | some e => e.main :: e.ctx

/-- Embedding of `RunContext.__enter__` (lines 131-142): walk the pending collaborators
in order; each context manager is entered (recorded in the first
component) and pushed onto the exit stack (second component, most recent
first). -/
def enterLoop (cs : CollabName → Collab) :
    List CollabName → List CollabName → List CollabName × List CollabName
  | [], stack => ([], stack)
  | n :: rest, stack =>
    if (cs n).isCM then
      ((enterLoop cs rest (n :: stack)).1.cons n, (enterLoop cs rest (n :: stack)).2)
    else enterLoop cs rest stack

/-- Enter a `RunContext`: returns the enter-event order and the resulting
exit stack. -/
def runContextEnter (cs : CollabName → Collab) : List CollabName × List CollabName :=
  enterLoop cs collabOrder []

/-- Embedding of `ExitStack.__exit__`: pop and call every callback (LIFO); a callback
that raises replaces the pending exception, chaining the previous one via
`__context__`.  Returns the release order, the final pending exception and
whether a callback raised (`pending_raise`, in which case the final
exception is re-raised out of `ExitStack.__exit__`). -/
def stackUnwind (cs : CollabName → Collab) :
    List CollabName → Option PyExc → List CollabName × Option PyExc × Bool
  | [], exc => ([], exc, false)
  | n :: rest, exc =>
    match (cs n).releaseErr with
    | none =>
      ((stackUnwind cs rest exc).1.cons n, (stackUnwind cs rest exc).2.1,
        (stackUnwind cs rest exc).2.2)
    | some f =>
      ((stackUnwind cs rest (some ⟨.err f, chainOf exc⟩)).1.cons n,
        (stackUnwind cs rest (some ⟨.err f, chainOf exc⟩)).2.1, true)

/-- Whether the exception passed to `__exit__` is a
`RunContextInterruptedError` (the `isinstance` test of line 171). -/
def isInterrupted : Option PyExc → Bool
  | some e => e.main == RCErr.interrupted
  | none => false

/-- A whole `with RunContext(...)` scope: enter the collaborators, run the
body (modelled by the exception it raises, if any), then
`RunContext.__exit__` (lines 168-173): the exit stack is unwound first; a
release failure propagates out of line 168 before the `isinstance` test;
otherwise a `RunContextInterruptedError` from the body is suppressed and
any other body exception propagates.  Returns the enter events, the
release events, and the exception observed by the caller of the scope
(`none` is a clean exit). -/
def runScope (cs : CollabName → Collab) (body : Option PyExc) :
    List CollabName × List CollabName × Option PyExc :=
  ((runContextEnter cs).1,
    (stackUnwind cs (runContextEnter cs).2 body).1,
    if (stackUnwind cs (runContextEnter cs).2 body).2.2 then
      (stackUnwind cs (runContextEnter cs).2 body).2.1
    else if isInterrupted body then none
    else body)

theorem enterLoop_spec (cs : CollabName → Collab) :
    ∀ (l stack : List CollabName),
      enterLoop cs l stack =
        (l.filter (fun n => (cs n).isCM),
          (l.filter (fun n => (cs n).isCM)).reverse ++ stack) := by
  intro l
  induction l with
  | nil => intro stack; simp [enterLoop]
  | cons n rest ih =>
    intro stack
    unfold enterLoop
    by_cases h : (cs n).isCM = true
    · rw [if_pos h, ih (n :: stack)]
      simp [List.filter_cons, h]
    · rw [if_neg h, ih stack]
      simp only [Bool.not_eq_true] at h
      simp [List.filter_cons, h]

theorem stackUnwind_releases (cs : CollabName → Collab) :
    ∀ (stack : List CollabName) (exc : Option PyExc),
      (stackUnwind cs stack exc).1 = stack := by
  intro stack
  induction stack with
  | nil => intro exc; simp [stackUnwind]
  | cons n rest ih =>
    intro exc
    unfold stackUnwind
    cases (cs n).releaseErr with
    | none => simp [ih]
    | some f => simp [ih]

theorem runScope_enter_order (cs : CollabName → Collab) (body : Option PyExc) :
    (runScope cs body).1 = collabOrder.filter (fun n => (cs n).isCM) := by
  show (runContextEnter cs).1 = _
  unfold runContextEnter
  rw [enterLoop_spec]

theorem runScope_release_order (cs : CollabName → Collab) (body : Option PyExc) :
    (runScope cs body).2.1 = (collabOrder.filter (fun n => (cs n).isCM)).reverse := by
  show (stackUnwind cs (runContextEnter cs).2 body).1 = _
  rw [stackUnwind_releases]
  unfold runContextEnter
  rw [enterLoop_spec]
  simp

/-- Claim C5: entering a Run Context enters exactly the collaborators that
expose the context-manager capability, in the fixed order config, model,
progress, metric, checkpoint, and exiting releases exactly those entered
collaborators in exact reverse order, whether the body completed normally
or raised. -/
theorem claim_c5_enter_exit_order (cs : CollabName → Collab) (body : Option PyExc) :
    (runScope cs body).1 = collabOrder.filter (fun n => (cs n).isCM) ∧
    (runScope cs body).2.1 = (collabOrder.filter (fun n => (cs n).isCM)).reverse :=
  ⟨runScope_enter_order cs body, runScope_release_order cs body⟩

theorem stackUnwind_no_failures (cs : CollabName → Collab)
    (hrel : ∀ n, (cs n).releaseErr = none) :
    ∀ (stack : List CollabName) (exc : Option PyExc),
      stackUnwind cs stack exc = (stack, exc, false) := by
  intro stack
  induction stack with
  | nil => intro exc; simp [stackUnwind]
  | cons n rest ih =>
    intro exc
    unfold stackUnwind
    rw [hrel n]
    simp [ih]

/-- Claim C6: when the condition propagating out of an active Run Context
scope is the interruption condition, the context unwinds every entered
resource and then suppresses it, so the caller observes a clean exit; any
other outcome of the body is never suppressed (stated for release actions
that succeed; a failing release propagates out of line 168 before the
`isinstance` test and is the subject of C7). -/
theorem claim_c6_interruption_swallowed (cs : CollabName → Collab)
    (hrel : ∀ n, (cs n).releaseErr = none) (body : Option PyExc) :
    (isInterrupted body = true →
      (runScope cs body).2.2 = none ∧
      (runScope cs body).2.1 = (collabOrder.filter (fun n => (cs n).isCM)).reverse) ∧
    (isInterrupted body = false → (runScope cs body).2.2 = body) := by
  have hsu := stackUnwind_no_failures cs hrel (runContextEnter cs).2 body
  constructor
  · intro hint
    constructor
    · show (if (stackUnwind cs (runContextEnter cs).2 body).2.2 then _
        else if isInterrupted body then none else body) = none
      rw [hsu, hint]
      simp
    · exact runScope_release_order cs body
  · intro hint
    show (if (stackUnwind cs (runContextEnter cs).2 body).2.2 then _
      else if isInterrupted body then none else body) = body
    rw [hsu, hint]
    simp

/-- Witness for C6: five entered collaborators with clean releases; an
interrupting body yields a clean exit with every resource released, and an
ordinary error is propagated unchanged. -/
theorem claim_c6_witness :
    ((runScope (fun _ => Collab.mk true none) (some ⟨RCErr.interrupted, []⟩)).2.2 = none ∧
      (runScope (fun _ => Collab.mk true none) (some ⟨RCErr.interrupted, []⟩)).2.1 =
        (collabOrder.filter
          (fun n => ((fun _ => Collab.mk true none) n).isCM)).reverse) ∧
    (runScope (fun _ => Collab.mk true none) (some ⟨RCErr.err 3, []⟩)).2.2 =
      some ⟨RCErr.err 3, []⟩ := by
  constructor
  · exact (claim_c6_interruption_swallowed (fun _ => Collab.mk true none)
      (fun _ => rfl) (some ⟨RCErr.interrupted, []⟩)).1 rfl
  · exact (claim_c6_interruption_swallowed (fun _ => Collab.mk true none)
      (fun _ => rfl) (some ⟨RCErr.err 3, []⟩)).2 rfl

/-- Accumulate `ExitStack` release failures over a pending exception: each
failure becomes the new pending exception, chaining the previous one. -/
def foldExc (exc : Option PyExc) (fs : List Nat) : Option PyExc :=
  fs.foldl (fun cur f => some ⟨.err f, chainOf cur⟩) exc

/-- The release failures of a Run Context scope, in chronological unwind
order (the exit stack is released front first). -/
def releaseFailures (cs : CollabName → Collab) : List Nat :=
  (runContextEnter cs).2.filterMap (fun n => (cs n).releaseErr)

/-- The chronologically first release failure during unwinding, if any. -/
def firstUnwindFailure (cs : CollabName → Collab) : Option RCErr :=
  ((releaseFailures cs).head?).map RCErr.err

theorem stackUnwind_exc (cs : CollabName → Collab) :
    ∀ (stack : List CollabName) (exc : Option PyExc),
      (stackUnwind cs stack exc).2.1 =
        foldExc exc (stack.filterMap (fun n => (cs n).releaseErr)) ∧
      (stackUnwind cs stack exc).2.2 =
        !(stack.filterMap (fun n => (cs n).releaseErr)).isEmpty := by
  intro stack
  induction stack with
  | nil => intro exc; simp [stackUnwind, foldExc]
  | cons n rest ih =>
    intro exc
    unfold stackUnwind
    cases hr : (cs n).releaseErr with
    | none =>
      have hfm : List.filterMap (fun m => (cs m).releaseErr) (n :: rest) =
          List.filterMap (fun m => (cs m).releaseErr) rest := by
        simp [List.filterMap_cons, hr]
      rw [hfm]
      simpa using ih exc
    | some f =>
      have hfm : List.filterMap (fun m => (cs m).releaseErr) (n :: rest) =
          f :: List.filterMap (fun m => (cs m).releaseErr) rest := by
        simp [List.filterMap_cons, hr]
      rw [hfm]
      refine ⟨?_, by simp⟩
      simpa [foldExc] using (ih (some ⟨.err f, chainOf exc⟩)).1

theorem foldExc_snoc : ∀ (gs : List Nat) (g : Nat) (exc : Option PyExc),
    foldExc exc (gs ++ [g]) =
      some ⟨.err g, (gs.reverse.map RCErr.err) ++ chainOf exc⟩ := by
  intro gs
  induction gs with
  | nil => intro g exc; simp [foldExc, List.foldl]
  | cons a gs ih =>
    intro g exc
    show foldExc (some ⟨.err a, chainOf exc⟩) (gs ++ [g]) = _
    rw [ih g (some ⟨.err a, chainOf exc⟩)]
    simp [chainOf]

/-- The collaborators of the C7 counterexample: config and checkpoint are
context managers whose exit callbacks raise errors 1 and 2 respectively;
the rest are context managers with clean releases. -/
def twoFailCollabs : CollabName → Collab
  | .config => ⟨true, some 1⟩
  | .checkpoint => ⟨true, some 2⟩
  | _ => ⟨true, none⟩

/-- Counterexample to claim C7 as stated: the body succeeds and two
release actions fail during unwinding; the chronologically first unwind
failure is error 2 (checkpoint, released first), but the exception
propagated to the caller is error 1 (config, released last) with error 2
relegated to its `__context__` chain — so the first release failure is
not the one propagated. -/
theorem claim_c7_counterexample :
    firstUnwindFailure twoFailCollabs = some (RCErr.err 2) ∧
    ((runScope twoFailCollabs none).2.2).map PyExc.main = some (RCErr.err 1) ∧
    ((runScope twoFailCollabs none).2.2).map PyExc.main ≠
      firstUnwindFailure twoFailCollabs ∧
    (runScope twoFailCollabs none).2.2 =
      some ⟨RCErr.err 1, [RCErr.err 2]⟩ := by
  refine ⟨by decide, by decide, by decide, by decide⟩

/-- Claim C7 as amended: on Run Context exit, if release actions fail
during unwinding, the caller observes the chronologically last release
failure, with every earlier release failure and the original body error
(if any) observable through its `__context__` chain; in particular, with a
successful body and exactly one failing release, that failure is the one
propagated, and a release failure never masks a prior error from the
scope body — both remain observable. -/
theorem claim_c7_unwind_failures (cs : CollabName → Collab) (body : Option PyExc)
    (gs : List Nat) (g : Nat) (hfail : releaseFailures cs = gs ++ [g]) :
    (runScope cs body).2.2 =
      some ⟨.err g, (gs.reverse.map RCErr.err) ++ chainOf body⟩ := by
  have hsu := stackUnwind_exc cs (runContextEnter cs).2 body
  have hfail2 : (runContextEnter cs).2.filterMap (fun n => (cs n).releaseErr) =
      gs ++ [g] := hfail
  show (if (stackUnwind cs (runContextEnter cs).2 body).2.2 then
      (stackUnwind cs (runContextEnter cs).2 body).2.1
    else if isInterrupted body then none else body) = _
  rw [hsu.2, hfail2]
  rw [if_pos (by simp)]
  rw [hsu.1, hfail2, foldExc_snoc]

/-- Witness for the amended C7 at the counterexample's collaborators: the
release failures are `[2, 1]`, and the caller observes error 1 carrying
error 2 in its chain. -/
theorem claim_c7_witness :
    (runScope twoFailCollabs none).2.2 = some ⟨RCErr.err 1, [RCErr.err 2]⟩ := by
  have h := claim_c7_unwind_failures twoFailCollabs none [2] 1 (by decide)
  simpa using h

/-!
### Metric sanitization (`metric_saver.py`)

`_encode_nan_and_inf_as_none` (lines 82-92) recurses through dicts and
lists, replaces non-finite floats by `None`, and leaves everything else
unchanged; `MemoryMetricSaver.save_metrics` (lines 46-68) extends the
stored list with the re-encoded records.  Python floats are modelled by
their `math.isfinite` partition: NaN, the two infinities, or a finite
value carried opaquely (no float arithmetic occurs in this code). -/

/-- A Python float as seen by `math.isfinite`: NaN, either infinity, or a
finite value (identified by an opaque tag, since the sanitizer only ever
tests finiteness and copies the value). -/
inductive PyFloat where
  | nan
  | inf
  | ninf
  | finite : Nat → PyFloat
deriving DecidableEq

/-- Model of `math.isfinite`. -/
def isfinite : PyFloat → Bool
  | .finite _ => true
  | _ => false

/-- The `JSON` type of `config_types.py`:
`dict[str, JSON] | list[JSON] | str | int | float | bool | None`. -/
inductive JSON where
  | null
  | bool : Bool → JSON
  | int : Int → JSON
  | float : PyFloat → JSON
  | str : List Char → JSON
  | arr : List JSON → JSON
  | obj : List (List Char × JSON) → JSON

mutual

/-- Embedding of `_encode_nan_and_inf_as_none` (`metric_saver.py:82-92`): recurse into
dict values and list elements, map non-finite floats to `None`, keep
everything else unchanged. -/
def encode_nan_and_inf_as_none : JSON → JSON
  | .obj kvs => .obj (encodeKVs kvs)
  | .arr xs => .arr (encodeElems xs)
  | .float f => if isfinite f then .float f else .null
  | .null => .null
  | .bool b => .bool b
  | .int n => .int n
  | .str s => .str s

/-- The list comprehension over list elements. -/
def encodeElems : List JSON → List JSON
  | [] => []
  | x :: xs => encode_nan_and_inf_as_none x :: encodeElems xs

/-- The dict comprehension over key/value pairs (keys unchanged). -/
def encodeKVs : List (List Char × JSON) → List (List Char × JSON)
  | [] => []
  | kv :: kvs => (kv.1, encode_nan_and_inf_as_none kv.2) :: encodeKVs kvs

end

mutual

/-- The sanitization contract, written from the specification: every
non-finite float (at any nesting depth) becomes null, while finite floats,
non-float leaves, array shapes and object keys are preserved unchanged. -/
inductive Sanitizes : JSON → JSON → Prop where
  | null : Sanitizes .null .null
  | bool (b : Bool) : Sanitizes (.bool b) (.bool b)
  | int (n : Int) : Sanitizes (.int n) (.int n)
  | str (s : List Char) : Sanitizes (.str s) (.str s)
  | finiteFloat (f : PyFloat) : isfinite f = true → Sanitizes (.float f) (.float f)
  | nonfiniteFloat (f : PyFloat) : isfinite f = false → Sanitizes (.float f) .null
  | arr {xs ys : List JSON} : SanitizesList xs ys → Sanitizes (.arr xs) (.arr ys)
  | obj {kvs kvs' : List (List Char × JSON)} : SanitizesKVs kvs kvs' →
      Sanitizes (.obj kvs) (.obj kvs')

/-- Elementwise sanitization of list elements. -/
inductive SanitizesList : List JSON → List JSON → Prop where
  | nil : SanitizesList [] []
  | cons {x y : JSON} {xs ys : List JSON} : Sanitizes x y → SanitizesList xs ys →
      SanitizesList (x :: xs) (y :: ys)

/-- Valuewise sanitization of object entries: keys unchanged. -/
inductive SanitizesKVs :
    List (List Char × JSON) → List (List Char × JSON) → Prop where
  | nil : SanitizesKVs [] []
  | cons (k : List Char) {v w : JSON} {kvs kvs' : List (List Char × JSON)} :
      Sanitizes v w → SanitizesKVs kvs kvs' →
      SanitizesKVs ((k, v) :: kvs) ((k, w) :: kvs')

end

mutual

theorem sanitizes_encode : ∀ (j : JSON), Sanitizes j (encode_nan_and_inf_as_none j)
  | .obj kvs => Sanitizes.obj (sanitizes_encodeKVs kvs)
  | .arr xs => Sanitizes.arr (sanitizes_encodeElems xs)
  | .float f => by
    unfold encode_nan_and_inf_as_none
    cases hf : isfinite f with
    | true => simpa using Sanitizes.finiteFloat f hf
    | false => simpa using Sanitizes.nonfiniteFloat f hf
  | .null => Sanitizes.null
  | .bool b => Sanitizes.bool b
  | .int n => Sanitizes.int n
  | .str s => Sanitizes.str s

theorem sanitizes_encodeElems : ∀ (xs : List JSON),
    SanitizesList xs (encodeElems xs)
  | [] => SanitizesList.nil
  | x :: xs => SanitizesList.cons (sanitizes_encode x) (sanitizes_encodeElems xs)

theorem sanitizes_encodeKVs : ∀ (kvs : List (List Char × JSON)),
    SanitizesKVs kvs (encodeKVs kvs)
  | [] => SanitizesKVs.nil
  | (k, v) :: kvs =>
    SanitizesKVs.cons k (sanitizes_encode v) (sanitizes_encodeKVs kvs)

end

/-- One metric record passed to `save_metrics` (`SaveMetricDict`). -/
structure MetricRecord where
  global_step : Int
  tag : List Char
  value : JSON

/-- Embedding of `_encode_metrics` (`metric_saver.py:71-79`): copy `global_step` and
`tag`, re-encode `value`. -/
def encode_metrics (ms : List MetricRecord) : List MetricRecord :=
  ms.map (fun m => ⟨m.global_step, m.tag, encode_nan_and_inf_as_none m.value⟩)

/-- Embedding of `MemoryMetricSaver.save_metrics` (line 68): extend the stored list
with the encoded records. -/
def save_metrics (stored ms : List MetricRecord) : List MetricRecord :=
  stored ++ encode_metrics ms

/-- Claim C8: `save_metrics` appends one stored record per input record;
each stored record keeps `global_step` and `tag` unchanged, and its value
is the input value with every non-finite float (including those nested in
dicts and lists) replaced by null and all finite floats and non-float
values unchanged. -/
theorem claim_c8_metric_sanitization (stored ms : List MetricRecord) :
    save_metrics stored ms = stored ++ encode_metrics ms ∧
    List.Forall₂
      (fun m m2 => m2.global_step = m.global_step ∧ m2.tag = m.tag ∧
        Sanitizes m.value m2.value)
      ms (encode_metrics ms) := by
  refine ⟨rfl, ?_⟩
  induction ms with
  | nil => exact List.Forall₂.nil
  | cons m ms ih =>
    exact List.Forall₂.cons ⟨rfl, rfl, sanitizes_encode m.value⟩ ih

/-!
### S3 key mapping (`s3.py`)

`_file_path_to_s3_key` (lines 14-21) turns a file's path relative to the
source directory into a key: local separators are replaced by `/` and the
result is appended to the key prefix.  `_s3_key_to_file_path` (lines
24-32) asserts that the prefix ends in `/`, then computes
`key.replace(prefix, "")` — Python's `str.replace`, which removes every
non-overlapping occurrence of the prefix, not only a leading one —
replaces `/` by the local separator and joins under the destination
directory.  `pyReplace` embeds Python's `str.replace` (left-to-right,
non-overlapping; never called with an empty pattern here since the prefix
ends in `/`). -/

/-- Fuel-based embedding of Python `str.replace` (the fuel, at least the
length of the subject, keeps the recursion structural). -/
def pyReplaceAux (pat rep : List Char) : Nat → List Char → List Char
  | _, [] => []
  | 0, s => s
  | fuel + 1, c :: rest =>
    if pat ≠ [] ∧ pat.isPrefixOf (c :: rest) = true then
      rep ++ pyReplaceAux pat rep fuel ((c :: rest).drop pat.length)
    else
      c :: pyReplaceAux pat rep fuel rest

/-- Python `s.replace(pat, rep)` for a non-empty `pat`: replace every
non-overlapping occurrence, scanning left to right. -/
def pyReplace (pat rep s : List Char) : List Char :=
  pyReplaceAux pat rep s.length s

theorem pyReplaceAux_irrel (pat rep : List Char) :
    ∀ (f1 : Nat), ∀ (f2 : Nat) (s : List Char), s.length ≤ f1 → s.length ≤ f2 →
      pyReplaceAux pat rep f1 s = pyReplaceAux pat rep f2 s := by
  intro f1
  induction f1 with
  | zero =>
    intro f2 s h1 h2
    have : s = [] := List.eq_nil_of_length_eq_zero (by omega)
    subst this
    cases f2 <;> rfl
  | succ g1 ih =>
    intro f2 s h1 h2
    cases s with
    | nil => cases f2 <;> rfl
    | cons c rest =>
      match f2 with
      | g2 + 1 =>
        show pyReplaceAux pat rep (g1 + 1) (c :: rest) =
          pyReplaceAux pat rep (g2 + 1) (c :: rest)
        unfold pyReplaceAux
        split
        · next h =>
          have hp : 1 ≤ pat.length := by
            cases hpat : pat with
            | nil => exact absurd hpat h.1
            | cons _ _ => simp
          have hd : ((c :: rest).drop pat.length).length ≤ rest.length := by
            simp only [List.length_drop, List.length_cons]
            omega
          rw [ih g2 ((c :: rest).drop pat.length) (by simp at h1 ⊢; omega)
            (by simp at h2 ⊢; omega)]
        · rw [ih g2 rest (by simp at h1; omega) (by simp at h2; omega)]

/-- Unfolding equation for `pyReplace` on a non-empty subject. -/
theorem pyReplace_cons (pat rep : List Char) (c : Char) (rest : List Char) :
    pyReplace pat rep (c :: rest) =
      if pat ≠ [] ∧ pat.isPrefixOf (c :: rest) = true then
        rep ++ pyReplace pat rep ((c :: rest).drop pat.length)
      else c :: pyReplace pat rep rest := by
  show pyReplaceAux pat rep (rest.length + 1) (c :: rest) = _
  unfold pyReplaceAux
  split
  · next h =>
    have hp : 1 ≤ pat.length := by
      cases hpat : pat with
      | nil => exact absurd hpat h.1
      | cons _ _ => simp
    congr 1
    apply pyReplaceAux_irrel
    · simp only [List.length_drop, List.length_cons]; omega
    · exact Nat.le_refl _
  · rfl

theorem isPrefixOf_append_self : ∀ (l t : List Char), l.isPrefixOf (l ++ t) = true := by
  intro l
  induction l with
  | nil => intro t; simp [List.isPrefixOf]
  | cons c cs ih => intro t; simp [List.isPrefixOf, ih]

theorem pyReplace_leading (pat rep : List Char) (hne : pat ≠ []) (s : List Char) :
    pyReplace pat rep (pat ++ s) = rep ++ pyReplace pat rep s := by
  match hp : pat with
  | p :: pt =>
    have hcons : (p :: pt) ++ s = p :: (pt ++ s) := rfl
    have hpre : (p :: pt).isPrefixOf (p :: (pt ++ s)) = true := by
      rw [← hcons]
      exact isPrefixOf_append_self _ _
    rw [hcons, pyReplace_cons]
    rw [if_pos ⟨by simp, hpre⟩]
    rw [← hcons, List.drop_left]

/-- Whether `pat` occurs as a contiguous substring of `s`. -/
def containsSub (pat : List Char) : List Char → Bool
  | [] => pat.isEmpty
  | c :: rest => pat.isPrefixOf (c :: rest) || containsSub pat rest

theorem pyReplace_no_occurrence (pat rep : List Char) :
    ∀ (s : List Char), containsSub pat s = false → pyReplace pat rep s = s := by
  intro s
  induction s with
  | nil => intro _; rfl
  | cons c rest ih =>
    intro h
    unfold containsSub at h
    simp only [Bool.or_eq_false_iff] at h
    rw [pyReplace_cons, if_neg (by simp [h.1])]
    rw [ih h.2]

theorem pyReplace_single (a b : Char) :
    ∀ (s : List Char), pyReplace [a] [b] s = s.map (fun c => if c = a then b else c) := by
  intro s
  induction s with
  | nil => rfl
  | cons c rest ih =>
    rw [pyReplace_cons]
    by_cases hc : c = a
    · subst hc
      rw [if_pos ⟨by simp, by simp [List.isPrefixOf]⟩]
      simp only [List.length_singleton, List.drop_succ_cons, List.drop_zero, List.map_cons]
      rw [ih]
      simp
    · rw [if_neg (by simp [List.isPrefixOf, Ne.symm hc])]
      rw [ih]
      simp [hc]

theorem sep_map_roundtrip (sep : Char) :
    ∀ (rel : List Char), (sep = '/' ∨ ('/' : Char) ∉ rel) →
      (rel.map (fun c => if c = sep then '/' else c)).map
        (fun c => if c = '/' then sep else c) = rel := by
  intro rel
  induction rel with
  | nil => intro _; rfl
  | cons c rest ih =>
    intro h
    have hrest : sep = '/' ∨ ('/' : Char) ∉ rest := by
      rcases h with h | h
      · exact Or.inl h
      · exact Or.inr (fun hc => h (List.mem_cons_of_mem _ hc))
    simp only [List.map_cons]
    rw [ih hrest]
    by_cases hc : c = sep
    · subst hc
      simp
    · rw [if_neg hc]
      have hcs : c ≠ '/' := by
        intro hc2
        rcases h with h | h
        · exact hc (hc2.trans h.symm)
        · exact h (hc2 ▸ List.mem_cons_self _ _)
      rw [if_neg hcs]

/-- Embedding of `_file_path_to_s3_key` (`s3.py:14-21`), applied to the path of a file
relative to the source directory: replace the local separator by `/` and
append to the key prefix. -/
def file_path_to_s3_key (sep : Char) (fileSuffix keyPfx : List Char) : List Char :=
  keyPfx ++ pyReplace [sep] ['/'] fileSuffix

/-- Model of `os.path.join(a, b)` for one relative component. -/
def pyJoin (sep : Char) (a b : List Char) : List Char :=
  if b.head? = some sep then b
  else if a.getLast? = some sep then a ++ b
  else a ++ sep :: b

/-- Embedding of `_s3_key_to_file_path` (`s3.py:24-32`): `key.replace(prefix, "")`
(removing every occurrence), `/` back to the local separator, joined under
the destination directory. -/
def s3_key_to_file_path (sep : Char) (key pathPfx keyPfx : List Char) : List Char :=
  pyJoin sep pathPfx (pyReplace ['/'] [sep] (pyReplace keyPfx [] key))

/-- Counterexample to claim C9 as stated: with key prefix `a/` and the
relative file path `a/x`, the upload key is `a/a/x`; on download,
`str.replace` strips both occurrences of `a/`, so the reconstructed path
is `d/x` instead of the original `d/a/x`. -/
theorem claim_c9_counterexample :
    s3_key_to_file_path '/' (file_path_to_s3_key '/' "a/x".toList "a/".toList)
        "d".toList "a/".toList = "d/x".toList ∧
    pyJoin '/' "d".toList "a/x".toList = "d/a/x".toList ∧
    "d/x".toList ≠ "d/a/x".toList := by
  refine ⟨by decide, by decide, by decide⟩

/-- Claim C9 as amended: translating a relative file path to a key and
back reconstructs the original path under the destination directory,
provided the key prefix ends with `/` and does not occur inside the
translated relative path (the code strips every occurrence of the prefix,
not only the leading one), and the relative path contains `/` only as the
local separator itself. -/
theorem claim_c9_key_roundtrip (sep : Char) (rel keyPfx pathPfx : List Char)
    (hend : keyPfx.getLast? = some '/')
    (hni : containsSub keyPfx (pyReplace [sep] ['/'] rel) = false)
    (hsep : sep = '/' ∨ ('/' : Char) ∉ rel) :
    s3_key_to_file_path sep (file_path_to_s3_key sep rel keyPfx) pathPfx keyPfx =
      pyJoin sep pathPfx rel := by
  have hne : keyPfx ≠ [] := by
    intro h
    rw [h] at hend
    simp at hend
  unfold s3_key_to_file_path file_path_to_s3_key
  rw [pyReplace_leading keyPfx [] hne _]
  rw [List.nil_append]
  rw [pyReplace_no_occurrence keyPfx [] _ hni]
  rw [pyReplace_single, pyReplace_single]
  rw [sep_map_roundtrip sep rel hsep]

/-- Witness for the amended C9: prefix `a/`, relative path `xy`,
destination `d`. -/
theorem claim_c9_witness :
    s3_key_to_file_path '/' (file_path_to_s3_key '/' "xy".toList "a/".toList)
        "d".toList "a/".toList = pyJoin '/' "d".toList "xy".toList :=
  claim_c9_key_roundtrip '/' "xy".toList "a/".toList "d".toList
    (by decide) (by decide) (Or.inl rfl)
